/-
Verification of the libefiboot topology-discovery and device-path-encoding
pipeline of this repository (src/creator.c, src/linux.c, src/linux.h) in a
shallow embedding.

Modelling conventions: C strings are Lean String or List Char; C pointers
that may be NULL are Option; machine integers are Nat or Int (uint32_t
bitmasks are Nat operated on with &&&, |||, ^^^); fallible C functions
return Option or Except, with Option.none / Except.error standing for the
error (or, where noted, crash) outcome.  External collaborators (the
efidp_* binary node encoders, make_hd_dn, stat/readlink/mount-table
queries) are modelled at their documented interfaces only, as the spec's
OUT OF SCOPE section directs; everything else is translated from the
source files under src/.
-/
import Mathlib

set_option maxHeartbeats 1000000

/-- Interface kinds, from the enum interface_type in src/linux.h. -/
inductive InterfaceType
  | unknown | isa | acpi_root | pci_root | soc_root | virtual_root
  | pci | network
  | ata | atapi | scsi | sata | sas
  | usb | i1394 | fibre | i2o
  | md | virtblk
  | nvme | nd_pmem
  | emmc
deriving DecidableEq, Repr

/-- Device flag bit DEV_PROVIDES_ROOT (src/linux.h). -/
def DEV_PROVIDES_ROOT : Nat := 1
/-- Device flag bit DEV_PROVIDES_HD (src/linux.h). -/
def DEV_PROVIDES_HD : Nat := 2
/-- Device flag bit DEV_ABBREV_ONLY (src/linux.h). -/
def DEV_ABBREV_ONLY : Nat := 4

/-- Modelled from the spec: the abbreviation option bit flags of the public
surface (spec section 6; the header defining the numeric values is not under
src/).  They are distinct single bits of a uint32_t options word. -/
def EFIBOOT_ABBREV_NONE : Nat := 1
/-- Modelled from the spec: see EFIBOOT_ABBREV_NONE. -/
def EFIBOOT_ABBREV_HD : Nat := 2
/-- Modelled from the spec: see EFIBOOT_ABBREV_NONE. -/
def EFIBOOT_ABBREV_FILE : Nat := 4
/-- Modelled from the spec: see EFIBOOT_ABBREV_NONE. -/
def EFIBOOT_ABBREV_EDD10 : Nat := 8
/-- Modelled from the spec: see EFIBOOT_ABBREV_NONE. -/
def EFIBOOT_OPTIONS_WRITE_SIGNATURE : Nat := 32

/-- C truthiness of a masked bitmask test: options & mask is nonzero. -/
def hasBit (o m : Nat) : Bool := o &&& m != 0

/-- A bus probe as the code under src/ sees it: the relevant members of
struct dev_probe (src/linux.h).  The member functions live in files outside
src/, so each is abstracted to its observable result for the device at
hand: parse records whether the member pointer is non-NULL (the loop guards
in device_get and make_blockdev_path test it), create holds the bytes the
probe's node encoder emits (none when the member is NULL), and
make_part_name holds the partition name that member would derive (none when
the member is NULL). -/
structure Probe where
  name : String
  flags : Nat
  parse : Bool
  create : Option (List Nat)
  make_part_name : Option String
deriving DecidableEq, Repr

/-- The central Device record, from struct device in src/linux.h.  probes
holds the populated entries of the calloc'd probe array in match order;
n_probes is the separate counter field of the struct (the C code under src/
never writes it, so the two need not agree).  The union of the storage
variant and ifname is flattened into one record; interface_type selects the
meaningful fields, exactly as the C code reads them. -/
structure Device where
  interface_type : InterfaceType
  flags : Nat
  link : Option String
  device : Option String
  driver : Option String
  probes : List Probe
  n_probes : Nat
  part : Int
  disk_name : Option String
  part_name : Option String
  edd10_devicenum : Nat
  acpi_hid_str : Option String
  acpi_uid_str : Option String
  acpi_cid_str : Option String
  ifname : Option String
  pci_driverlinks : List (Option String)
deriving DecidableEq, Repr

/-- set_part_name (src/linux.c:179-198).  The vasprintf of the format
arguments is abstracted to the resulting string; allocation succeeds.
Returns the updated device and the C return code. -/
def set_part_name (dev : Device) (name : String) : Device × Int :=
  if dev.part ≤ 0 then (dev, 0)
  else ({ dev with part_name := some name }, 0)

/-- reset_part_name (src/linux.c:200-227), translated branch for branch:
the existing partition name is freed first (every branch below leaves
part_name either none or freshly set), a partition index below 1 keeps it
null, and otherwise the name is derived.  The index used on the probe
array is kept exactly as in the source: the guard tests
probes[n_probes-1]->make_part_name but the call goes through
probes[n_probes].  In the embedding the probe list holds exactly the
populated slots, so an index at n_probes or past the populated entries is
an out-of-range access: reading it (or calling a NULL make_part_name
member) is the crash outcome, modelled as none. -/
def reset_part_name (dev : Device) : Option (Device × Int) :=
  if dev.part < 1 then some ({ dev with part_name := none }, 0)
  else if dev.n_probes > 0 ∧
          (dev.probes.get? (dev.n_probes - 1)).any
            (fun p => p.make_part_name.isSome) then
    match dev.probes.get? dev.n_probes with
    | none => none
    | some p =>
      match p.make_part_name with
      | none => none
      | some nm => some ({ dev with part_name := some nm }, 0)
  else
    some ({ dev with part_name := some ((dev.disk_name.getD "") ++ toString dev.part) }, 0)

/-- set_part (src/linux.c:229-243): a value equal to the current partition
index returns 0 at once; otherwise the index is stored and the partition
name re-derived through reset_part_name, whose return code is passed on. -/
def set_part (dev : Device) (value : Int) : Option (Device × Int) :=
  if dev.part = value then some (dev, 0)
  else
    reset_part_name { dev with part := value }

/-- One resource released by device_free; the names follow the struct
members freed in src/linux.c:487-530. -/
inductive FreeAction
  | link | device | driver | probes
  | acpiHid | acpiUid | acpiCid
  | ifname | diskName | partName
  | pciDriverlink (i : Nat) | pciDevArr
  | self
deriving DecidableEq, Repr

/-- device_free (src/linux.c:487-530) as the trace of resources it
releases, in program order.  A NULL device returns immediately with an
empty trace.  The probes and pci_dev arrays are freed when non-NULL in C;
device_get always allocates the probes array, and the pci_dev array
pointer is modelled by the pci_driverlinks list being nonempty. -/
def device_free : Option Device → List FreeAction
  | none => []
  | some dev =>
    (if dev.link.isSome then [FreeAction.link] else []) ++
    (if dev.device.isSome then [FreeAction.device] else []) ++
    (if dev.driver.isSome then [FreeAction.driver] else []) ++
    [FreeAction.probes] ++
    (if dev.acpi_hid_str.isSome then [FreeAction.acpiHid] else []) ++
    (if dev.acpi_uid_str.isSome then [FreeAction.acpiUid] else []) ++
    (if dev.acpi_cid_str.isSome then [FreeAction.acpiCid] else []) ++
    (if dev.interface_type = InterfaceType.network then
       (if dev.ifname.isSome then [FreeAction.ifname] else [])
     else
       (if dev.disk_name.isSome then [FreeAction.diskName] else []) ++
       (if dev.part_name.isSome then [FreeAction.partName] else [])) ++
    ((List.range dev.pci_driverlinks.length).filterMap (fun i =>
       match dev.pci_driverlinks.get? i with
       | some (some _) => some (FreeAction.pciDriverlink i)
       | _ => none)) ++
    (if dev.pci_driverlinks ≠ [] then [FreeAction.pciDevArr] else []) ++
    [FreeAction.self]

/-- Result of the stat() of a mount entry's device node in find_file
(src/creator.c:102-113): the node may be missing (ENOENT, entry skipped),
stat may fail otherwise (the loop aborts), or it succeeds and yields the
S_ISBLK bit and the st_rdev device identity. -/
inductive StatResult
  | noent
  | fail
  | ok (isBlock : Bool) (rdev : Nat)
deriving DecidableEq, Repr

/-- One mount-table entry as find_file consumes it.  mnt_fsname and the
"/dev/" prefixing only determine which node is statted; that external stat
is abstracted into the stat field. -/
structure Mntent where
  mnt_fsname : List Char
  mnt_dir : List Char
  stat : StatResult
deriving DecidableEq, Repr

/-- Errors of find_file: the table is exhausted without a match (ENOENT),
or a stat failed with an error other than ENOENT. -/
inductive FindErr
  | noent
  | statFail
deriving DecidableEq, Repr

/-- The mount-scan loop of find_file (src/creator.c:76-153), translated
clause for clause: skip entries whose node is missing, abort on other stat
failures, skip non-block nodes, and on the first entry whose st_rdev
equals the file's containing-filesystem st_dev and whose mount directory
is a strict prefix of the canonical path, return that entry and the path
remainder.  linkbuf is the canonical path produced by the symlink loop
(src/creator.c:47-67), whose stat/readlink steps are external queries. -/
def find_file (linkbuf : List Char) (fsDev : Nat) :
    List Mntent → Except FindErr (Mntent × List Char)
  | [] => Except.error FindErr.noent
  | e :: rest =>
    match e.stat with
    | StatResult.noent => find_file linkbuf fsDev rest
    | StatResult.fail => Except.error FindErr.statFail
    | StatResult.ok isBlk rdev =>
      if !isBlk then find_file linkbuf fsDev rest
      else if rdev = fsDev then
        if e.mnt_dir.length ≥ linkbuf.length then find_file linkbuf fsDev rest
        else if linkbuf.take e.mnt_dir.length ≠ e.mnt_dir then
          find_file linkbuf fsDev rest
        else Except.ok (e, linkbuf.drop e.mnt_dir.length)
      else find_file linkbuf fsDev rest

/-- The matching test applied to one entry by the find_file loop, as a
predicate: statted block device whose identity equals the file's
containing-filesystem identity, with the mount directory a strict prefix
of the canonical path. -/
def mnt_matches (linkbuf : List Char) (fsDev : Nat) (e : Mntent) : Bool :=
  match e.stat with
  | StatResult.ok isBlk rdev =>
    isBlk && rdev == fsDev &&
    decide (e.mnt_dir.length < linkbuf.length) &&
    decide (linkbuf.take e.mnt_dir.length = e.mnt_dir)
  | _ => false

/-- tilt_slashes (src/creator.c:180-188): forward slashes become
backslashes, in place. -/
def tilt_slashes (s : List Char) : List Char :=
  s.map (fun c => if c = '/' then '\\' else c)

/-- Modelled from the spec: the capacity handed to each node encoder, the
C idiom "size ? size - off : 0" used at every emission site in
src/creator.c and src/linux.c; size 0 means size-query mode and the
subtraction is done in ssize_t, so it can go negative. -/
def capOf (size : Int) (off : Nat) : Int :=
  if size = 0 then 0 else size - (off : Int)

/-- Bytes written into buf starting at off, leaving the rest in place. -/
def writeBytes (buf : List Nat) (off : Nat) (bytes : List Nat) : List Nat :=
  buf.take off ++ bytes ++ buf.drop (off + bytes.length)

/-- Modelled from the spec: the two-pass contract every external node
encoder obeys (spec section 6): with capacity 0 it returns the required
length without writing; with capacity at least that length it writes
exactly those bytes at the cursor and returns the length; otherwise it
fails (none). -/
def encStep (bytes : List Nat) (buf : List Nat) (off : Nat) (cap : Int) :
    Option (Nat × List Nat) :=
  if cap = 0 then some (bytes.length, buf)
  else if (bytes.length : Int) ≤ cap then
    some (bytes.length, writeBytes buf off bytes)
  else none

/-- Modelled from the spec: the EndEntire terminator node (spec section 6,
"EndEntire (zero-length terminator)"): a node that is all header and no
payload, four bytes with the length field equal to the header size. -/
def end_entire_bytes : List Nat := [0x7f, 0xff, 0x04, 0x00]

/-- Tags naming which node an emission step produced, used to state which
nodes appear in the output stream and in what order. -/
inductive NodeTag
  | topo
  | edd
  | hd
  | file
  | endEntire
deriving DecidableEq, Repr

/-- The probe loop of make_blockdev_path (src/linux.c:825-840): walk the
populated probe slots while the slot is non-NULL and has a parse member,
skip probes without a create member, and hand each create the running
offset and the capacity "size ? size - off : 0"; a negative return aborts.
Returns offset, buffer, and one topo tag per emitted node. -/
def make_blockdev_path_go (size : Int) :
    List Probe → List Nat → Nat → List NodeTag →
    Option (Nat × List Nat × List NodeTag)
  | [], buf, off, tags => some (off, buf, tags)
  | p :: ps, buf, off, tags =>
    if !p.parse then some (off, buf, tags)
    else
      match p.create with
      | none => make_blockdev_path_go size ps buf off tags
      | some bytes =>
        match encStep bytes buf off (capOf size off) with
        | none => none
        | some (sz, buf2) =>
          make_blockdev_path_go size ps buf2 (off + sz)
            (tags ++ [NodeTag.topo])

/-- make_blockdev_path (src/linux.c:818-845): emit the matched probes'
nodes in order starting at offset 0. -/
def make_blockdev_path (dev : Device) (buf : List Nat) (size : Int) :
    Option (Nat × List Nat × List NodeTag) :=
  make_blockdev_path_go size dev.probes buf 0 []

/-- The external environment of one encoding call: whether open_disk
succeeds, what is_partitioned reports, and the byte outputs of the
external node encoders efidp_make_edd10 (a function of the EDD 1.0 device
number), make_hd_dn, and efidp_make_file (a function of the
slash-translated relative path); all satisfy the two-pass contract via
encStep.  These collaborators live outside src/ and are fixed for the
duration of a call, matching the spec's read-only-environment model. -/
structure EncEnv where
  openDiskOk : Bool
  isPartitioned : Bool
  eddBytes : Nat → List Nat
  hdBytes : List Nat
  fileEnc : List Char → List Nat

/-- Error outcomes of the encoding pipeline, tagged by origin: a failed
open, the EINVAL rejection of an ABBREV_ONLY device without File()/HD(),
a node encoder failure, or the crash in reset_part_name's out-of-range
probe access. -/
inductive EncErr
  | eopen
  | einval
  | nospc
  | crash
deriving DecidableEq, Repr

/-- The option adjustment of src/creator.c:241-246: partition index 0
forces EFIBOOT_ABBREV_NONE on and masks EFIBOOT_ABBREV_HD, _FILE and
_EDD10 off the uint32_t options word; any other partition leaves the
caller's options untouched. -/
def adjust_options (options : Nat) (partition : Int) : Nat :=
  if partition = 0 then
    (options ||| EFIBOOT_ABBREV_NONE) &&&
      (0xffffffff ^^^
        (EFIBOOT_ABBREV_HD ||| EFIBOOT_ABBREV_FILE ||| EFIBOOT_ABBREV_EDD10))
  else options

/-- efi_va_generate_file_device_path_from_esp (src/creator.c:190-349) from
the point the Device has been obtained (the initial open and device_get
are abstracted by taking dev as an argument), translated step for step:
zero the buffer when a sized one is supplied; resolve a negative partition
through open_disk and is_partitioned; set_part (its return code is ignored
by the C code, but its crash aborts); adjust the options for partition 0;
read the EDD 1.0 device number when requested; reject an ABBREV_ONLY
device given neither File() nor HD(); then emit, in order, the EDD 1.0
node or the topology prefix (when neither FILE nor HD abbreviation is
chosen), the HD() node when its condition holds, the File() node of the
slash-translated relative path, and the EndEntire terminator, each through
the two-pass encStep with capacity "size ? size - off : 0".  Returns the
final offset, the buffer, and the emitted node tags. -/
def efi_va_generate_file_device_path_from_esp (env : EncEnv) (dev : Device)
    (bufIn : List Nat) (size : Int) (partition : Int) (relpath : List Char)
    (options : Nat) (eddNum : Nat) :
    Except EncErr (Nat × List Nat × List NodeTag) :=
  let buf := if size ≠ 0 then bufIn.map (fun _ => 0) else bufIn
  match (if partition < 0 then
           (if env.openDiskOk then
             Except.ok (if env.isPartitioned then (1 : Int) else 0)
            else Except.error EncErr.eopen)
         else Except.ok partition : Except EncErr Int) with
  | Except.error e => Except.error e
  | Except.ok partition =>
  match set_part dev partition with
  | none => Except.error EncErr.crash
  | some (dev, _) =>
  let options := adjust_options options partition
  let dev := if hasBit options EFIBOOT_ABBREV_EDD10 then
               { dev with edd10_devicenum := eddNum }
             else dev
  if !hasBit options (EFIBOOT_ABBREV_FILE ||| EFIBOOT_ABBREV_HD) &&
     hasBit dev.flags DEV_ABBREV_ONLY then
    Except.error EncErr.einval
  else
  match (if hasBit options EFIBOOT_ABBREV_EDD10 &&
            !hasBit options EFIBOOT_ABBREV_FILE &&
            !hasBit options EFIBOOT_ABBREV_HD then
           match encStep (env.eddBytes dev.edd10_devicenum) buf 0 size with
           | none => Except.error EncErr.nospc
           | some (sz, buf2) => Except.ok (sz, buf2, [NodeTag.edd])
         else if !hasBit options EFIBOOT_ABBREV_FILE &&
                 !hasBit options EFIBOOT_ABBREV_HD then
           match make_blockdev_path dev buf size with
           | none => Except.error EncErr.nospc
           | some (off, buf2, tags) => Except.ok (off, buf2, tags)
         else Except.ok (0, buf, [])
         : Except EncErr (Nat × List Nat × List NodeTag)) with
  | Except.error e => Except.error e
  | Except.ok (off, buf, tags) =>
  match (if (!hasBit options EFIBOOT_ABBREV_FILE && dev.part_name.isSome) ||
            (hasBit options EFIBOOT_ABBREV_HD && !dev.part_name.isSome) then
           if !env.openDiskOk then Except.error EncErr.eopen
           else
             match encStep env.hdBytes buf off (capOf size off) with
             | none => Except.error EncErr.nospc
             | some (sz, buf2) =>
               Except.ok (off + sz, buf2, tags ++ [NodeTag.hd])
         else Except.ok (off, buf, tags)
         : Except EncErr (Nat × List Nat × List NodeTag)) with
  | Except.error e => Except.error e
  | Except.ok (off, buf, tags) =>
  match encStep (env.fileEnc (tilt_slashes relpath)) buf off
          (capOf size off) with
  | none => Except.error EncErr.nospc
  | some (sz, buf2) =>
  let off := off + sz
  let buf := buf2
  let tags := tags ++ [NodeTag.file]
  match encStep end_entire_bytes buf off (capOf size off) with
  | none => Except.error EncErr.nospc
  | some (sz, buf2) =>
    Except.ok (off + sz, buf2, tags ++ [NodeTag.endEntire])

/-- Total byte length of a list of node-byte lists. -/
def totalLen (nodes : List (List Nat)) : Nat :=
  (nodes.map List.length).sum

/-- The byte lists make_blockdev_path emits for a probe list: the create
outputs of the probes up to the first one without a parse member. -/
def createBytesList (ps : List Probe) : List (List Nat) :=
  (ps.takeWhile (fun p => p.parse)).filterMap (fun p => p.create)

/-- One topo tag per node make_blockdev_path emits. -/
def topoTagsOf (ps : List Probe) : List NodeTag :=
  (createBytesList ps).map (fun _ => NodeTag.topo)

/-- The sequence of node-byte lists the encoder emits for the given
(already adjusted) options and (already set_part-updated) device: the
EDD 1.0 node, or the topology prefix when neither FILE nor HD abbreviation
is chosen; the HD() node under its condition; then the File() node of the
slash-translated relative path and the EndEntire terminator.  This mirrors
the branch conditions of src/creator.c:257-338 and is the specification
the encoder's two passes are proved against. -/
def nodeList (env : EncEnv) (o : Nat) (d : Device) (relpath : List Char) :
    List (List Nat) :=
  (if hasBit o EFIBOOT_ABBREV_EDD10 && !hasBit o EFIBOOT_ABBREV_FILE &&
      !hasBit o EFIBOOT_ABBREV_HD then
     [env.eddBytes d.edd10_devicenum]
   else if !hasBit o EFIBOOT_ABBREV_FILE && !hasBit o EFIBOOT_ABBREV_HD then
     createBytesList d.probes
   else []) ++
  (if (!hasBit o EFIBOOT_ABBREV_FILE && d.part_name.isSome) ||
      (hasBit o EFIBOOT_ABBREV_HD && !d.part_name.isSome) then
     [env.hdBytes]
   else []) ++
  [env.fileEnc (tilt_slashes relpath), end_entire_bytes]

/-- The node tags matching nodeList entry for entry. -/
def tagList (o : Nat) (d : Device) : List NodeTag :=
  (if hasBit o EFIBOOT_ABBREV_EDD10 && !hasBit o EFIBOOT_ABBREV_FILE &&
      !hasBit o EFIBOOT_ABBREV_HD then
     [NodeTag.edd]
   else if !hasBit o EFIBOOT_ABBREV_FILE && !hasBit o EFIBOOT_ABBREV_HD then
     topoTagsOf d.probes
   else []) ++
  (if (!hasBit o EFIBOOT_ABBREV_FILE && d.part_name.isSome) ||
      (hasBit o EFIBOOT_ABBREV_HD && !d.part_name.isSome) then
     [NodeTag.hd]
   else []) ++
  [NodeTag.file, NodeTag.endEntire]

/-- A mount entry at the filesystem root whose backing device has identity
5, for the order-dependence counterexample. -/
def entSlash : Mntent :=
  { mnt_fsname := "/dev/sda1".toList, mnt_dir := "/".toList,
    stat := StatResult.ok true 5 }

/-- A mount entry at /boot backed by the same device identity 5. -/
def entBoot : Mntent :=
  { mnt_fsname := "/dev/sda1".toList, mnt_dir := "/boot".toList,
    stat := StatResult.ok true 5 }

/-- The canonical path of a file under /boot. -/
def pathBootX : List Char := "/boot/x".toList

/-- A root mount backed by device identity 10 for the spec's two-mount
scenario. -/
def entRootA : Mntent :=
  { mnt_fsname := "/dev/sda2".toList, mnt_dir := "/".toList,
    stat := StatResult.ok true 10 }

/-- A /boot/efi mount backed by the distinct device identity 11. -/
def entEfiB : Mntent :=
  { mnt_fsname := "/dev/sda1".toList, mnt_dir := "/boot/efi".toList,
    stat := StatResult.ok true 11 }

/-- The canonical path of a file under /boot/efi. -/
def pathEfiX : List Char := "/boot/efi/x".toList

/-- A probe that matched and owns a create encoder, for the concrete
encoding examples. -/
def exProbe : Probe :=
  { name := "pci", flags := 0, parse := true, create := some [1, 2, 3],
    make_part_name := none }

/-- A concrete partition-1 device as device_get builds one on Linux:
probes populated in match order, n_probes left 0, names derived. -/
def exDev : Device :=
  { interface_type := InterfaceType.sata, flags := 0,
    link := some "../../devices/pci0/block/sda/sda1",
    device := some "0:0:0:0", driver := some "sd",
    probes := [exProbe], n_probes := 0, part := 1,
    disk_name := some "sda", part_name := some "sda1",
    edd10_devicenum := 0,
    acpi_hid_str := none, acpi_uid_str := none, acpi_cid_str := none,
    ifname := none, pci_driverlinks := [] }

/-- A concrete external environment for the encoding examples. -/
def exEnv : EncEnv :=
  { openDiskOk := true, isPartitioned := true,
    eddBytes := fun _ => [7, 7], hdBytes := [5, 5, 5],
    fileEnc := fun s => [s.length] }

/-- A probe that matched and owns a make_part_name member. -/
def probeMpn : Probe :=
  { name := "nvme", flags := 0, parse := true, create := some [10],
    make_part_name := some "nvme0n1p1" }

/-- A device whose populated probe list is exactly its n_probes matched
probes, the last of which carries a make_part_name member: the situation
claim C6 quantifies over. -/
def devLastProbeMpn : Device :=
  { interface_type := InterfaceType.nvme, flags := 0,
    link := some "../../devices/pci0/nvme/nvme0/nvme0n1/nvme0n1p1",
    device := some "nvme0", driver := some "nvme",
    probes := [probeMpn], n_probes := 1, part := 1,
    disk_name := some "nvme0n1", part_name := none,
    edd10_devicenum := 0,
    acpi_hid_str := none, acpi_uid_str := none, acpi_cid_str := none,
    ifname := none, pci_driverlinks := [] }

theorem hasBit_eq_false_iff {o m : Nat} : hasBit o m = false ↔ o &&& m = 0 := by
  simp [hasBit]

theorem land_six_eq_zero {o : Nat} (h2 : o &&& 2 = 0) (h4 : o &&& 4 = 0) :
    o &&& 6 = 0 := by
  apply Nat.eq_of_testBit_eq
  intro i
  have t1 : o.testBit 1 = false := by
    have h := congrArg (fun n => n.testBit 1) h2
    simp only [Nat.testBit_and, Nat.zero_testBit] at h
    have e : Nat.testBit 2 1 = true := by decide
    rw [e, Bool.and_true] at h
    exact h
  have t2 : o.testBit 2 = false := by
    have h := congrArg (fun n => n.testBit 2) h4
    simp only [Nat.testBit_and, Nat.zero_testBit] at h
    have e : Nat.testBit 4 2 = true := by decide
    rw [e, Bool.and_true] at h
    exact h
  simp only [Nat.testBit_and, Nat.zero_testBit]
  match i with
  | 0 => simp
  | 1 => simp [t1]
  | 2 => simp [t2]
  | (n+3) =>
    have h6 : (6 : Nat) < 2 ^ (n + 3) := by
      calc (6:Nat) < 8 := by norm_num
      _ = 2 ^ 3 := by norm_num
      _ ≤ 2 ^ (n + 3) := Nat.pow_le_pow_right (by norm_num) (by omega)
    simp [Nat.testBit_lt_two_pow h6]

theorem lor_one_land_one (o : Nat) : (o ||| 1) &&& 1 = 1 := by
  apply Nat.eq_of_testBit_eq
  intro i
  match i with
  | 0 => simp [Nat.testBit_and, Nat.testBit_or]
  | (n+1) => simp [Nat.testBit_and, Nat.testBit_or, Nat.testBit_succ]

theorem adjust_options_of_ne (o : Nat) {p : Int} (hp : p ≠ 0) :
    adjust_options o p = o := by
  simp [adjust_options, hp]

theorem adjust_zero_land_hd (o : Nat) :
    adjust_options o 0 &&& EFIBOOT_ABBREV_HD = 0 := by
  show ((o ||| 1) &&&
    (0xffffffff ^^^ ((2 : Nat) ||| 4 ||| 8))) &&& 2 = 0
  rw [Nat.and_assoc]
  have e : ((0xffffffff ^^^ ((2 : Nat) ||| 4 ||| 8)) &&& 2) = 0 := by decide
  rw [e]
  simp

theorem adjust_zero_land_file (o : Nat) :
    adjust_options o 0 &&& EFIBOOT_ABBREV_FILE = 0 := by
  show ((o ||| 1) &&&
    (0xffffffff ^^^ ((2 : Nat) ||| 4 ||| 8))) &&& 4 = 0
  rw [Nat.and_assoc]
  have e : ((0xffffffff ^^^ ((2 : Nat) ||| 4 ||| 8)) &&& 4) = 0 := by decide
  rw [e]
  simp

theorem adjust_zero_land_edd (o : Nat) :
    adjust_options o 0 &&& EFIBOOT_ABBREV_EDD10 = 0 := by
  show ((o ||| 1) &&&
    (0xffffffff ^^^ ((2 : Nat) ||| 4 ||| 8))) &&& 8 = 0
  rw [Nat.and_assoc]
  have e : ((0xffffffff ^^^ ((2 : Nat) ||| 4 ||| 8)) &&& 8) = 0 := by decide
  rw [e]
  simp

theorem adjust_zero_land_none (o : Nat) :
    adjust_options o 0 &&& EFIBOOT_ABBREV_NONE = 1 := by
  show ((o ||| 1) &&&
    (0xffffffff ^^^ ((2 : Nat) ||| 4 ||| 8))) &&& 1 = 1
  rw [Nat.and_assoc]
  have e : ((0xffffffff ^^^ ((2 : Nat) ||| 4 ||| 8)) &&& 1) = 1 := by decide
  rw [e]
  exact lor_one_land_one o

theorem set_part_fields {dev : Device} {v : Int} {d' : Device} {rc : Int}
    (h : set_part dev v = some (d', rc)) :
    d'.part = v ∧ d'.flags = dev.flags ∧ d'.probes = dev.probes ∧
    d'.n_probes = dev.n_probes ∧ d'.disk_name = dev.disk_name ∧
    d'.edd10_devicenum = dev.edd10_devicenum := by
  unfold set_part at h
  by_cases he : dev.part = v
  · rw [if_pos he] at h
    rw [Option.some_inj] at h
    obtain ⟨h1, _⟩ := Prod.mk.injEq .. ▸ h
    subst h1
    exact ⟨he.symm ▸ rfl, rfl, rfl, rfl, rfl, rfl⟩
  · rw [if_neg he] at h
    unfold reset_part_name at h
    split at h
    · rw [Option.some_inj] at h
      obtain ⟨h1, _⟩ := Prod.mk.injEq .. ▸ h
      subst h1
      exact ⟨rfl, rfl, rfl, rfl, rfl, rfl⟩
    · split at h
      · split at h
        · exact absurd h (by simp)
        · split at h
          · exact absurd h (by simp)
          · rw [Option.some_inj] at h
            obtain ⟨h1, _⟩ := Prod.mk.injEq .. ▸ h
            subst h1
            exact ⟨rfl, rfl, rfl, rfl, rfl, rfl⟩
      · rw [Option.some_inj] at h
        obtain ⟨h1, _⟩ := Prod.mk.injEq .. ▸ h
        subst h1
        exact ⟨rfl, rfl, rfl, rfl, rfl, rfl⟩

/-- C6 (code_bug evidence): on a device whose populated probe list is
exactly its n_probes matched probes and whose last matched probe has a
make_part_name member — the premise of the claim — reset_part_name takes
the out-of-range branch (it reads probes[n_probes], one slot past the last
matched probe) rather than invoking the last matched probe's
make_part_name, so the embedding returns none where the claim requires
the derived name. -/
theorem reset_part_name_reads_past_populated :
    (devLastProbeMpn.n_probes > 0 ∧
      (devLastProbeMpn.probes.get? (devLastProbeMpn.n_probes - 1)).any
        (fun p => p.make_part_name.isSome) = true) ∧
    reset_part_name devLastProbeMpn = none := by
  refine ⟨⟨by decide, by decide⟩, by decide⟩

/-- C8: set_part with the device's current partition index is an exact
no-op (it returns 0 and leaves the whole device, part_name included,
untouched); with a different index it stores the index and re-derives
part_name from scratch — the result never depends on the previous
part_name, and in the default derivation branch the new name is built
from the new index. -/
theorem set_part_noop_and_rederives (dev : Device) (v : Int) :
    (v = dev.part → set_part dev v = some (dev, 0)) ∧
    (v ≠ dev.part →
      (∀ pn, set_part { dev with part_name := pn } v = set_part dev v) ∧
      (∀ d' rc, set_part dev v = some (d', rc) → d'.part = v) ∧
      (¬(dev.n_probes > 0 ∧
          (dev.probes.get? (dev.n_probes - 1)).any
            (fun p => p.make_part_name.isSome) = true) →
        set_part dev v =
          some ({ dev with part := v, part_name := (if v < 1 then none else some ((dev.disk_name.getD "") ++ toString v)) }, 0))) := by
  constructor
  · intro h
    simp [set_part, h]
  · intro h
    have hne : ¬ (dev.part = v) := fun e => h e.symm
    refine ⟨?_, ?_, ?_⟩
    · intro pn
      simp [set_part, hne, reset_part_name]
    · intro d' rc hsp
      exact (set_part_fields hsp).1
    · intro hg
      by_cases hv : v < 1
      · simp [set_part, hne, reset_part_name, hv]
      · simp only [List.get?_eq_getElem?] at hg
        simp [set_part, hne, reset_part_name, hv]
        intro h1 h2
        exact absurd ⟨h1, h2⟩ hg

/-- C8 witness: on the concrete partition-1 device, setting partition 1
again is the exact no-op, and setting partition 2 re-derives the name to
"sda2". -/
theorem set_part_noop_and_rederives_witness :
    set_part exDev 1 = some (exDev, 0) ∧
    set_part exDev 2 =
      some ({ exDev with part := 2, part_name := some "sda2" }, 0) := by
  constructor
  · exact (set_part_noop_and_rederives exDev 1).1 (by decide)
  · have h := (((set_part_noop_and_rederives exDev 2).2 (by decide)).2.2) (by decide)
    simpa using h

/-- C9: changing the partition index to a value below 1 leaves the device
with no partition name (reset_part_name nulls the old name and returns
before synthesizing), set_part_name does nothing when the partition index
is at most 0, and reset_part_name on a partition index below 1 just nulls
the name. -/
theorem part_name_none_below_one (dev : Device) (v : Int) (name : String) :
    (v ≠ dev.part → v < 1 →
      set_part dev v = some ({ dev with part := v, part_name := none }, 0)) ∧
    (dev.part ≤ 0 → set_part_name dev name = (dev, 0)) ∧
    (dev.part < 1 →
      reset_part_name dev = some ({ dev with part_name := none }, 0)) := by
  refine ⟨?_, ?_, ?_⟩
  · intro h hv
    have hne : ¬ (dev.part = v) := fun e => h e.symm
    simp [set_part, hne, reset_part_name, hv]
  · intro h
    simp [set_part_name, h]
  · intro h
    simp [reset_part_name, h]

/-- C9 witness: setting partition 0 on the concrete partition-1 device
nulls the name, set_part_name is inert at partition 0, and
reset_part_name nulls a stale name at partition 0. -/
theorem part_name_none_below_one_witness :
    set_part exDev 0 = some ({ exDev with part := 0, part_name := none }, 0) ∧
    set_part_name { exDev with part := 0 } "zzz" = ({ exDev with part := 0 }, 0) ∧
    reset_part_name { exDev with part := 0 } =
      some ({ exDev with part := 0, part_name := none }, 0) := by
  refine ⟨?_, ?_, ?_⟩
  · exact (part_name_none_below_one exDev 0 "zzz").1 (by decide) (by decide)
  · exact (part_name_none_below_one { exDev with part := 0 } 0 "zzz").2.1 (by decide)
  · exact (part_name_none_below_one { exDev with part := 0 } 0 "zzz").2.2 (by decide)

/-- C10: device_free of a NULL device is a total no-op — it releases
nothing — while a non-NULL device is always released (its own storage is
freed last), so every exit path may call it unconditionally. -/
theorem device_free_null_is_noop :
    device_free none = [] ∧
    ∀ dev, FreeAction.self ∈ device_free (some dev) := by
  refine ⟨rfl, fun dev => ?_⟩
  simp [device_free]

theorem find_file_eq_find (l : List Char) (f : Nat) (ms : List Mntent)
    (h : ∀ e ∈ ms, e.stat ≠ StatResult.fail) :
    find_file l f ms = (match ms.find? (mnt_matches l f) with
      | some e => Except.ok (e, l.drop e.mnt_dir.length)
      | none => Except.error FindErr.noent) := by
  induction ms with
  | nil => simp [find_file]
  | cons e ms ih =>
    have he := h e (by simp)
    have hms : ∀ x ∈ ms, x.stat ≠ StatResult.fail := fun x hx => h x (by simp [hx])
    have ih2 := ih hms
    match hstat : e.stat with
    | StatResult.fail => exact absurd hstat he
    | StatResult.noent =>
      simp [find_file, hstat, List.find?_cons, mnt_matches, ih2]
    | StatResult.ok isBlk rdev =>
      by_cases hb : isBlk = true
      · by_cases hr : rdev = f
        · by_cases hlen : e.mnt_dir.length ≥ l.length
          · have hnm : ¬ (e.mnt_dir.length < l.length) := by omega
            simp [find_file, hstat, hb, hr, hlen, List.find?_cons, mnt_matches,
                  hnm, ih2]
          · by_cases htake : l.take e.mnt_dir.length = e.mnt_dir
            · have hm : e.mnt_dir.length < l.length := by omega
              simp [find_file, hstat, hb, hr, hlen, htake, List.find?_cons,
                    mnt_matches, hm]
            · simp [find_file, hstat, hb, hr, hlen, htake, List.find?_cons,
                    mnt_matches, ih2]
        · simp [find_file, hstat, hb, hr, List.find?_cons, mnt_matches, ih2]
      · simp [find_file, hstat, hb, List.find?_cons, mnt_matches, ih2]

/-- C1 counterexample: with two mount entries both backed by device
identity 5 and both mount directories strict prefixes of the canonical
path /boot/x, find_file returns whichever entry comes first in the table —
here the root entry, although the /boot entry is the longest strict
prefix — so the selection is neither longest-prefix nor order
independent. -/
theorem find_file_not_longest_and_order_dependent :
    find_file pathBootX 5 [entSlash, entBoot] =
      Except.ok (entSlash, "boot/x".toList) ∧
    find_file pathBootX 5 [entBoot, entSlash] =
      Except.ok (entBoot, "/x".toList) ∧
    mnt_matches pathBootX 5 entBoot = true ∧
    entSlash.mnt_dir.length < entBoot.mnt_dir.length := by
  refine ⟨by rfl, by rfl, by decide, by decide⟩

/-- C1 amended: find_file selects the first entry in mount-table order
whose backing block device identity equals the file's
containing-filesystem identity and whose mount directory is a strict
prefix of the canonical path (provided no stat fails hard); when the
mounts at / and /boot/efi are backed by distinct devices, only the
/boot/efi entry's device matches a file under /boot/efi, so it is
selected in either table order, as the spec's scenario requires. -/
theorem find_file_first_match :
    (∀ (l : List Char) (f : Nat) (ms : List Mntent),
      (∀ e ∈ ms, e.stat ≠ StatResult.fail) →
      find_file l f ms = (match ms.find? (mnt_matches l f) with
        | some e => Except.ok (e, l.drop e.mnt_dir.length)
        | none => Except.error FindErr.noent)) ∧
    find_file pathEfiX 11 [entRootA, entEfiB] =
      Except.ok (entEfiB, "/x".toList) ∧
    find_file pathEfiX 11 [entEfiB, entRootA] =
      Except.ok (entEfiB, "/x".toList) := by
  refine ⟨fun l f ms h => find_file_eq_find l f ms h, by rfl, by rfl⟩

/-- C1 amended witness: the first-match characterization applied to the
concrete shared-device table. -/
theorem find_file_first_match_witness :
    find_file pathBootX 5 [entSlash, entBoot] =
      (match List.find? (mnt_matches pathBootX 5) [entSlash, entBoot] with
        | some e => Except.ok (e, pathBootX.drop e.mnt_dir.length)
        | none => Except.error FindErr.noent) :=
  (find_file_first_match).1 pathBootX 5 [entSlash, entBoot] (by decide)

theorem mbp_go_dry (ps : List Probe) :
    ∀ (buf : List Nat) (off : Nat) (tags : List NodeTag),
    make_blockdev_path_go 0 ps buf off tags =
      some (off + totalLen (createBytesList ps), buf, tags ++ topoTagsOf ps) := by
  induction ps with
  | nil =>
    intro buf off tags
    simp [make_blockdev_path_go, createBytesList, topoTagsOf, totalLen]
  | cons p ps ih =>
    intro buf off tags
    by_cases hp : p.parse
    · cases hc : p.create with
      | none =>
        simp [make_blockdev_path_go, hp, hc, ih, createBytesList, topoTagsOf,
              List.takeWhile_cons]
      | some bytes =>
        simp [make_blockdev_path_go, hp, hc, encStep, capOf, ih,
              createBytesList, topoTagsOf, totalLen, List.takeWhile_cons]
        omega
    · simp [make_blockdev_path_go, hp, createBytesList, topoTagsOf, totalLen,
            List.takeWhile_cons]

theorem encode_dry_run (env : EncEnv) (dev d1 d2 : Device) (rc : Int)
    (partition : Int) (relpath : List Char) (options eddNum : Nat)
    (hneg : ¬ partition < 0)
    (hsp : set_part dev partition = some (d1, rc))
    (hd2 : d2 = (if hasBit (adjust_options options partition)
                    EFIBOOT_ABBREV_EDD10 then
                   { d1 with edd10_devicenum := eddNum } else d1))
    (hguard : ¬ (hasBit (adjust_options options partition)
                   (EFIBOOT_ABBREV_FILE ||| EFIBOOT_ABBREV_HD) = false ∧
                 hasBit dev.flags DEV_ABBREV_ONLY = true))
    (hopen : ((!hasBit (adjust_options options partition) EFIBOOT_ABBREV_FILE
                 && d2.part_name.isSome) ||
              (hasBit (adjust_options options partition) EFIBOOT_ABBREV_HD
                 && !d2.part_name.isSome)) = true → env.openDiskOk = true) :
    efi_va_generate_file_device_path_from_esp env dev [] 0 partition relpath
        options eddNum =
      Except.ok (totalLen (nodeList env (adjust_options options partition) d2
                   relpath),
                 [],
                 tagList (adjust_options options partition) d2) := by
  have hflags : d2.flags = dev.flags := by
    rw [hd2]
    split
    · exact (set_part_fields hsp).2.1
    · exact (set_part_fields hsp).2.1
  have hprobes : d2.probes = dev.probes := by
    rw [hd2]
    split
    · exact (set_part_fields hsp).2.2.1
    · exact (set_part_fields hsp).2.2.1
  have hcond : (!hasBit (adjust_options options partition)
                   (EFIBOOT_ABBREV_FILE ||| EFIBOOT_ABBREV_HD) &&
                hasBit d2.flags DEV_ABBREV_ONLY) = false := by
    rw [hflags]
    cases hm : hasBit (adjust_options options partition)
        (EFIBOOT_ABBREV_FILE ||| EFIBOOT_ABBREV_HD) with
    | true => simp
    | false =>
      cases ha : hasBit dev.flags DEV_ABBREV_ONLY with
      | true => exact absurd ⟨hm, ha⟩ hguard
      | false => simp
  simp only [efi_va_generate_file_device_path_from_esp, if_neg hneg, hsp]
  rw [← hd2]
  simp only [hcond, Bool.false_eq_true, if_false]
  by_cases hE : (hasBit (adjust_options options partition) EFIBOOT_ABBREV_EDD10 &&
      !hasBit (adjust_options options partition) EFIBOOT_ABBREV_FILE &&
      !hasBit (adjust_options options partition) EFIBOOT_ABBREV_HD) = true
  · by_cases hH : (!hasBit (adjust_options options partition)
          EFIBOOT_ABBREV_FILE && d2.part_name.isSome ||
        hasBit (adjust_options options partition) EFIBOOT_ABBREV_HD &&
          !d2.part_name.isSome) = true
    · have ho2 := hopen hH
      have hHp := hH
      simp at hHp
      simp [hE, hHp, ho2, encStep, capOf, nodeList, tagList, totalLen]
      omega
    · have hPn : ¬ (hasBit (adjust_options options partition)
            EFIBOOT_ABBREV_FILE = false ∧ d2.part_name.isSome = true ∨
          hasBit (adjust_options options partition)
            EFIBOOT_ABBREV_HD = true ∧ d2.part_name = none) := by
        intro hP
        apply hH
        rcases hP with ⟨h1, h2⟩ | ⟨h1, h2⟩ <;> simp [h1, h2]
      simp [hE, hPn, encStep, capOf, nodeList, tagList, totalLen]
      omega
  · by_cases hT : (!hasBit (adjust_options options partition)
          EFIBOOT_ABBREV_FILE &&
        !hasBit (adjust_options options partition) EFIBOOT_ABBREV_HD) = true
    · have hmbp := mbp_go_dry d2.probes [] 0 []
      by_cases hH : (!hasBit (adjust_options options partition)
            EFIBOOT_ABBREV_FILE && d2.part_name.isSome ||
          hasBit (adjust_options options partition) EFIBOOT_ABBREV_HD &&
            !d2.part_name.isSome) = true
      · have ho2 := hopen hH
        have hHp := hH
        simp at hHp
        simp [hE, hT, hHp, ho2, encStep, capOf, nodeList, tagList, totalLen,
              make_blockdev_path, hmbp, topoTagsOf, List.sum_append]
        omega
      · have hPn : ¬ (hasBit (adjust_options options partition)
              EFIBOOT_ABBREV_FILE = false ∧ d2.part_name.isSome = true ∨
            hasBit (adjust_options options partition)
              EFIBOOT_ABBREV_HD = true ∧ d2.part_name = none) := by
          intro hP
          apply hH
          rcases hP with ⟨h1, h2⟩ | ⟨h1, h2⟩ <;> simp [h1, h2]
        simp [hE, hT, hPn, encStep, capOf, nodeList, tagList, totalLen,
              make_blockdev_path, hmbp, topoTagsOf, List.sum_append]
        omega
    · by_cases hH : (!hasBit (adjust_options options partition)
            EFIBOOT_ABBREV_FILE && d2.part_name.isSome ||
          hasBit (adjust_options options partition) EFIBOOT_ABBREV_HD &&
            !d2.part_name.isSome) = true
      · have ho2 := hopen hH
        have hHp := hH
        simp at hHp
        simp [hE, hT, hHp, ho2, encStep, capOf, nodeList, tagList, totalLen]
        omega
      · have hPn : ¬ (hasBit (adjust_options options partition)
              EFIBOOT_ABBREV_FILE = false ∧ d2.part_name.isSome = true ∨
            hasBit (adjust_options options partition)
              EFIBOOT_ABBREV_HD = true ∧ d2.part_name = none) := by
          intro hP
          apply hH
          rcases hP with ⟨h1, h2⟩ | ⟨h1, h2⟩ <;> simp [h1, h2]
        simp [hE, hT, hPn, encStep, capOf, nodeList, tagList, totalLen]

theorem land_two_of_six {o : Nat} (h : o &&& 6 = 0) : o &&& 2 = 0 := by
  apply Nat.eq_of_testBit_eq
  intro i
  have t1 : o.testBit 1 = false := by
    have hh := congrArg (fun n => n.testBit 1) h
    simp only [Nat.testBit_and, Nat.zero_testBit] at hh
    have e : Nat.testBit 6 1 = true := by decide
    rw [e, Bool.and_true] at hh
    exact hh
  simp only [Nat.testBit_and, Nat.zero_testBit]
  match i with
  | 0 => simp
  | 1 => simp [t1]
  | (n+2) =>
    have h2 : (2 : Nat) < 2 ^ (n + 2) := by
      calc (2:Nat) < 4 := by norm_num
      _ = 2 ^ 2 := by norm_num
      _ ≤ 2 ^ (n + 2) := Nat.pow_le_pow_right (by norm_num) (by omega)
    simp [Nat.testBit_lt_two_pow h2]

theorem land_four_of_six {o : Nat} (h : o &&& 6 = 0) : o &&& 4 = 0 := by
  apply Nat.eq_of_testBit_eq
  intro i
  have t2 : o.testBit 2 = false := by
    have hh := congrArg (fun n => n.testBit 2) h
    simp only [Nat.testBit_and, Nat.zero_testBit] at hh
    have e : Nat.testBit 6 2 = true := by decide
    rw [e, Bool.and_true] at hh
    exact hh
  simp only [Nat.testBit_and, Nat.zero_testBit]
  match i with
  | 0 => simp
  | 1 =>
    have e : Nat.testBit 4 1 = false := by decide
    simp [e]
  | 2 => simp [t2]
  | (n+3) =>
    have h4 : (4 : Nat) < 2 ^ (n + 3) := by
      calc (4:Nat) < 8 := by norm_num
      _ = 2 ^ 3 := by norm_num
      _ ≤ 2 ^ (n + 3) := Nat.pow_le_pow_right (by norm_num) (by omega)
    simp [Nat.testBit_lt_two_pow h4]

theorem set_part_zero_part_name {dev d1 : Device} {rc : Int}
    (hsp : set_part dev 0 = some (d1, rc))
    (hpn : dev.part = 0 → dev.part_name = none) :
    d1.part_name = none := by
  unfold set_part at hsp
  by_cases he : dev.part = (0 : Int)
  · rw [if_pos he] at hsp
    rw [Option.some_inj] at hsp
    obtain ⟨h1, _⟩ := Prod.mk.injEq .. ▸ hsp
    subst h1
    exact hpn he
  · rw [if_neg he] at hsp
    unfold reset_part_name at hsp
    rw [if_pos (by simp : ({ dev with part := (0:Int) } : Device).part < 1)] at hsp
    rw [Option.some_inj] at hsp
    obtain ⟨h1, _⟩ := Prod.mk.injEq .. ▸ hsp
    subst h1
    rfl

/-- C2 counterexample: on a partition-1 device, passing
ABBREV_NONE together with ABBREV_HD leaves the HD bit effective — the
encoder emits no topology-prefix node at all (the emitted stream is
HD, File, EndEntire), so ABBREV_NONE does not clear the bits supplied
alongside it and the output does not always contain the topology
prefix. -/
theorem encode_none_with_hd_skips_topology :
    efi_va_generate_file_device_path_from_esp exEnv exDev [] 0 1
        (String.toList "EFI") (EFIBOOT_ABBREV_NONE ||| EFIBOOT_ABBREV_HD) 0 =
      Except.ok (8, [], [NodeTag.hd, NodeTag.file, NodeTag.endEntire]) ∧
    NodeTag.topo ∉ [NodeTag.hd, NodeTag.file, NodeTag.endEntire] := by
  exact ⟨by rfl, by decide⟩

/-- C2 amended: the HD/FILE/EDD10 bits are cleared (and NONE forced) only
when the resolved partition index is 0; for a partition index of at least
1 the caller's options word reaches the encoder unchanged, and when
ABBREV_NONE is set with no FILE, HD or EDD10 bit alongside it, on a device
not flagged ABBREV_ONLY, the output stream is the full topology-prefix
node sequence, then an HD node exactly when a partition name is present,
then the File node and the EndEntire node. -/
theorem encode_none_alone_full_topology (env : EncEnv) (dev d1 : Device)
    (rc partition : Int) (relpath : List Char) (options eddNum : Nat)
    (hpart : 1 ≤ partition)
    (hsp : set_part dev partition = some (d1, rc))
    (hnone : hasBit options EFIBOOT_ABBREV_NONE = true)
    (hfile : options &&& EFIBOOT_ABBREV_FILE = 0)
    (hhd : options &&& EFIBOOT_ABBREV_HD = 0)
    (hedd : options &&& EFIBOOT_ABBREV_EDD10 = 0)
    (habbrev : hasBit dev.flags DEV_ABBREV_ONLY = false)
    (hopen : env.openDiskOk = true) :
    adjust_options options partition = options ∧
    efi_va_generate_file_device_path_from_esp env dev [] 0 partition relpath
        options eddNum =
      Except.ok (totalLen (nodeList env options d1 relpath), [],
        topoTagsOf dev.probes ++
        (if d1.part_name.isSome then [NodeTag.hd] else []) ++
        [NodeTag.file, NodeTag.endEntire]) := by
  have hpz : partition ≠ 0 := by omega
  have hadj : adjust_options options partition = options :=
    adjust_options_of_ne options hpz
  refine ⟨hadj, ?_⟩
  have hneg : ¬ partition < 0 := by omega
  have hEb : hasBit options EFIBOOT_ABBREV_EDD10 = false :=
    hasBit_eq_false_iff.mpr hedd
  have hFb : hasBit options EFIBOOT_ABBREV_FILE = false :=
    hasBit_eq_false_iff.mpr hfile
  have hHb : hasBit options EFIBOOT_ABBREV_HD = false :=
    hasBit_eq_false_iff.mpr hhd
  have hguard : ¬ (hasBit (adjust_options options partition)
        (EFIBOOT_ABBREV_FILE ||| EFIBOOT_ABBREV_HD) = false ∧
      hasBit dev.flags DEV_ABBREV_ONLY = true) := by
    intro hc
    rw [hc.2] at habbrev
    exact absurd habbrev (by decide)
  have hmain := encode_dry_run env dev d1 d1 rc partition relpath options
    eddNum hneg hsp (by rw [hadj, hEb]; simp) hguard
    (by intro hc; exact hopen)
  rw [hmain]
  have hprobes : d1.probes = dev.probes := (set_part_fields hsp).2.2.1
  rw [hadj]
  congr 1
  simp [tagList, hEb, hFb, hHb, topoTagsOf, hprobes]

/-- C2 amended witness: ABBREV_NONE alone on the concrete partition-1
device yields topology, HD (a partition name is present), File and
EndEntire. -/
theorem encode_none_alone_full_topology_witness :
    adjust_options EFIBOOT_ABBREV_NONE 1 = EFIBOOT_ABBREV_NONE ∧
    efi_va_generate_file_device_path_from_esp exEnv exDev [] 0 1
        (String.toList "EFI") EFIBOOT_ABBREV_NONE 0 =
      Except.ok (totalLen (nodeList exEnv EFIBOOT_ABBREV_NONE exDev
          (String.toList "EFI")), [],
        topoTagsOf exDev.probes ++
        (if exDev.part_name.isSome then [NodeTag.hd] else []) ++
        [NodeTag.file, NodeTag.endEntire]) :=
  encode_none_alone_full_topology exEnv exDev exDev 0 1
    (String.toList "EFI") EFIBOOT_ABBREV_NONE 0 (by decide) (by rfl)
    (by decide) (by decide) (by decide) (by decide) (by decide) (by decide)

/-- C3 counterexample: with ABBREV_FILE set the encoder still emits the
File() node — the emitted stream on the concrete device is exactly File
then EndEntire — contradicting the claim that no File() node appears. -/
theorem encode_file_abbrev_emits_file_node :
    efi_va_generate_file_device_path_from_esp exEnv exDev [] 0 1
        (String.toList "EFI") EFIBOOT_ABBREV_FILE 0 =
      Except.ok (5, [], [NodeTag.file, NodeTag.endEntire]) ∧
    NodeTag.file ∈ [NodeTag.file, NodeTag.endEntire] := by
  exact ⟨by rfl, by decide⟩

/-- C3 amended: ABBREV_FILE does not suppress the File() node; it
suppresses the topology-prefix, EDD 1.0 and (when HD is not also
requested) HD nodes, so for a partition index of at least 1 the emitted
stream is exactly the File() node — whose path is the unconditionally
slash-translated relative path — followed by EndEntire. -/
theorem encode_file_abbrev_only_file_and_end (env : EncEnv) (dev d1 : Device)
    (rc partition : Int) (relpath : List Char) (options eddNum : Nat)
    (hpart : 1 ≤ partition)
    (hsp : set_part dev partition = some (d1, rc))
    (hfile : hasBit options EFIBOOT_ABBREV_FILE = true)
    (hhd : options &&& EFIBOOT_ABBREV_HD = 0) :
    efi_va_generate_file_device_path_from_esp env dev [] 0 partition relpath
        options eddNum =
      Except.ok ((env.fileEnc (tilt_slashes relpath)).length +
          end_entire_bytes.length, [],
        [NodeTag.file, NodeTag.endEntire]) := by
  have hpz : partition ≠ 0 := by omega
  have hadj : adjust_options options partition = options :=
    adjust_options_of_ne options hpz
  have hneg : ¬ partition < 0 := by omega
  have hHb : hasBit options EFIBOOT_ABBREV_HD = false :=
    hasBit_eq_false_iff.mpr hhd
  have hguard : ¬ (hasBit (adjust_options options partition)
        (EFIBOOT_ABBREV_FILE ||| EFIBOOT_ABBREV_HD) = false ∧
      hasBit dev.flags DEV_ABBREV_ONLY = true) := by
    intro hc
    have h6 : options &&& (EFIBOOT_ABBREV_FILE ||| EFIBOOT_ABBREV_HD) = 0 := by
      rw [hadj] at hc
      exact hasBit_eq_false_iff.mp hc.1
    have e : (EFIBOOT_ABBREV_FILE ||| EFIBOOT_ABBREV_HD : Nat) = 6 := by decide
    rw [e] at h6
    have h4 : options &&& 4 = 0 := land_four_of_six h6
    have : hasBit options EFIBOOT_ABBREV_FILE = false :=
      hasBit_eq_false_iff.mpr h4
    rw [hfile] at this
    exact absurd this (by decide)
  have hopen2 : ((!hasBit (adjust_options options partition)
        EFIBOOT_ABBREV_FILE &&
      (if hasBit (adjust_options options partition) EFIBOOT_ABBREV_EDD10 then
         { d1 with edd10_devicenum := eddNum } else d1).part_name.isSome) ||
      (hasBit (adjust_options options partition) EFIBOOT_ABBREV_HD &&
       !(if hasBit (adjust_options options partition) EFIBOOT_ABBREV_EDD10 then
           { d1 with edd10_devicenum := eddNum } else d1).part_name.isSome)) =
      true → env.openDiskOk = true := by
    rw [hadj, hfile, hHb]
    simp
  have hmain := encode_dry_run env dev d1
    (if hasBit (adjust_options options partition) EFIBOOT_ABBREV_EDD10 then
       { d1 with edd10_devicenum := eddNum } else d1) rc partition relpath
    options eddNum hneg hsp rfl hguard hopen2
  rw [hmain, hadj]
  simp [nodeList, tagList, totalLen, hfile, hHb]

/-- C3 amended witness: ABBREV_FILE on the concrete device yields exactly
File and EndEntire, with the slash-translated path measured by the file
encoder. -/
theorem encode_file_abbrev_only_file_and_end_witness :
    efi_va_generate_file_device_path_from_esp exEnv exDev [] 0 1
        (String.toList "EFI/BOOT") EFIBOOT_ABBREV_FILE 0 =
      Except.ok ((exEnv.fileEnc (tilt_slashes (String.toList "EFI/BOOT"))).length +
          end_entire_bytes.length, [],
        [NodeTag.file, NodeTag.endEntire]) :=
  encode_file_abbrev_only_file_and_end exEnv exDev exDev 0 1
    (String.toList "EFI/BOOT") EFIBOOT_ABBREV_FILE 0 (by decide) (by rfl)
    (by decide) (by decide)

/-- C4: a resolved partition index of 0 forces ABBREV_NONE on and clears
the HD, FILE and EDD10 bits whatever the caller passed, and (on a device
that is not ABBREV_ONLY, whose whole-disk state carries no partition
name) the encoding is the full topology prefix followed by File and
EndEntire — no EDD 1.0 node and no HD node. -/
theorem encode_partition_zero_forces_full (env : EncEnv) (dev d1 : Device)
    (rc : Int) (relpath : List Char) (options eddNum : Nat)
    (hsp : set_part dev 0 = some (d1, rc))
    (hpn : dev.part = 0 → dev.part_name = none)
    (habbrev : hasBit dev.flags DEV_ABBREV_ONLY = false) :
    hasBit (adjust_options options 0) EFIBOOT_ABBREV_NONE = true ∧
    hasBit (adjust_options options 0) EFIBOOT_ABBREV_HD = false ∧
    hasBit (adjust_options options 0) EFIBOOT_ABBREV_FILE = false ∧
    hasBit (adjust_options options 0) EFIBOOT_ABBREV_EDD10 = false ∧
    efi_va_generate_file_device_path_from_esp env dev [] 0 0 relpath
        options eddNum =
      Except.ok (totalLen (nodeList env (adjust_options options 0) d1 relpath),
        [], topoTagsOf dev.probes ++ [NodeTag.file, NodeTag.endEntire]) := by
  have hN : hasBit (adjust_options options 0) EFIBOOT_ABBREV_NONE = true := by
    simp [hasBit, adjust_zero_land_none options]
  have hH : hasBit (adjust_options options 0) EFIBOOT_ABBREV_HD = false :=
    hasBit_eq_false_iff.mpr (adjust_zero_land_hd options)
  have hF : hasBit (adjust_options options 0) EFIBOOT_ABBREV_FILE = false :=
    hasBit_eq_false_iff.mpr (adjust_zero_land_file options)
  have hE : hasBit (adjust_options options 0) EFIBOOT_ABBREV_EDD10 = false :=
    hasBit_eq_false_iff.mpr (adjust_zero_land_edd options)
  refine ⟨hN, hH, hF, hE, ?_⟩
  have hneg : ¬ (0 : Int) < 0 := by omega
  have hpn1 : d1.part_name = none := set_part_zero_part_name hsp hpn
  have hguard : ¬ (hasBit (adjust_options options 0)
        (EFIBOOT_ABBREV_FILE ||| EFIBOOT_ABBREV_HD) = false ∧
      hasBit dev.flags DEV_ABBREV_ONLY = true) := by
    intro hc
    rw [hc.2] at habbrev
    exact absurd habbrev (by decide)
  have hmain := encode_dry_run env dev d1 d1 rc 0 relpath options eddNum
    hneg hsp (by rw [hE]; simp) hguard
    (by rw [hF, hH, hpn1]; simp)
  rw [hmain]
  have hprobes : d1.probes = dev.probes := (set_part_fields hsp).2.2.1
  congr 1
  simp [tagList, hE, hF, hH, hpn1, topoTagsOf, hprobes]

/-- C4 witness: partition 0 on the concrete device (whose name state is
re-derived to none by set_part) with every abbreviation bit set still
produces the full topology, File, EndEntire stream. -/
theorem encode_partition_zero_forces_full_witness :
    hasBit (adjust_options 14 0) EFIBOOT_ABBREV_NONE = true ∧
    hasBit (adjust_options 14 0) EFIBOOT_ABBREV_HD = false ∧
    hasBit (adjust_options 14 0) EFIBOOT_ABBREV_FILE = false ∧
    hasBit (adjust_options 14 0) EFIBOOT_ABBREV_EDD10 = false ∧
    efi_va_generate_file_device_path_from_esp exEnv exDev [] 0 0
        (String.toList "EFI") 14 0 =
      Except.ok (totalLen (nodeList exEnv (adjust_options 14 0)
          { exDev with part := 0, part_name := none }
          (String.toList "EFI")),
        [], topoTagsOf exDev.probes ++ [NodeTag.file, NodeTag.endEntire]) :=
  encode_partition_zero_forces_full exEnv exDev
    { exDev with part := 0, part_name := none } 0
    (String.toList "EFI") 14 0 (by rfl) (by decide) (by decide)

/-- C7: a device flagged ABBREV_ONLY whose options request neither
ABBREV_FILE nor ABBREV_HD is rejected with the EINVAL InvalidArgument
error, whatever the other option bits (ABBREV_EDD10 included) say. -/
theorem encode_abbrev_only_einval (env : EncEnv) (dev d1 : Device)
    (rc : Int) (bufIn : List Nat) (size partition : Int)
    (relpath : List Char) (options eddNum : Nat)
    (hpart : 0 ≤ partition)
    (hsp : set_part dev partition = some (d1, rc))
    (hfile : options &&& EFIBOOT_ABBREV_FILE = 0)
    (hhd : options &&& EFIBOOT_ABBREV_HD = 0)
    (habbrev : hasBit dev.flags DEV_ABBREV_ONLY = true) :
    efi_va_generate_file_device_path_from_esp env dev bufIn size partition
        relpath options eddNum = Except.error EncErr.einval := by
  have hneg : ¬ partition < 0 := by omega
  have hflags : d1.flags = dev.flags := (set_part_fields hsp).2.1
  have e6 : (EFIBOOT_ABBREV_FILE ||| EFIBOOT_ABBREV_HD : Nat) = 6 := by decide
  have hmask : hasBit (adjust_options options partition)
      (EFIBOOT_ABBREV_FILE ||| EFIBOOT_ABBREV_HD) = false := by
    rw [hasBit_eq_false_iff, e6]
    by_cases hz : partition = 0
    · rw [hz]
      have h2 := adjust_zero_land_hd options
      have h4 := adjust_zero_land_file options
      exact land_six_eq_zero h2 h4
    · rw [adjust_options_of_ne options hz]
      exact land_six_eq_zero hhd hfile
  simp only [efi_va_generate_file_device_path_from_esp, if_neg hneg, hsp]
  have hcond : ∀ dx : Device, dx.flags = dev.flags →
      (!hasBit (adjust_options options partition)
          (EFIBOOT_ABBREV_FILE ||| EFIBOOT_ABBREV_HD) &&
        hasBit dx.flags DEV_ABBREV_ONLY) = true := by
    intro dx hdx
    rw [hmask, hdx, habbrev]
    rfl
  by_cases hE : hasBit (adjust_options options partition)
      EFIBOOT_ABBREV_EDD10 = true
  · simp [hE, hcond { d1 with edd10_devicenum := eddNum } hflags]
  · simp [hE, hcond d1 hflags]

/-- C7 witness: the concrete ABBREV_ONLY device with only ABBREV_EDD10
requested is rejected with EINVAL. -/
theorem encode_abbrev_only_einval_witness :
    efi_va_generate_file_device_path_from_esp exEnv
        { exDev with flags := DEV_ABBREV_ONLY } [] 0 1
        (String.toList "EFI") EFIBOOT_ABBREV_EDD10 0 =
      Except.error EncErr.einval :=
  encode_abbrev_only_einval exEnv { exDev with flags := DEV_ABBREV_ONLY }
    { exDev with flags := DEV_ABBREV_ONLY } 0 [] 0 1
    (String.toList "EFI") EFIBOOT_ABBREV_EDD10 0 (by decide) (by rfl)
    (by decide) (by decide) (by decide)

theorem writeBytes_append (w r bytes : List Nat) :
    writeBytes (w ++ r) w.length bytes = (w ++ bytes) ++ r.drop bytes.length := by
  unfold writeBytes
  rw [List.take_left]
  have hdrop : (w ++ r).drop (w.length + bytes.length) = r.drop bytes.length := by
    rw [← List.drop_drop, List.drop_left]
  rw [hdrop, List.append_assoc]

theorem encStep_fit (bytes w r : List Nat) (L : Nat)
    (hL : L = w.length + r.length)
    (hle : bytes.length ≤ r.length) :
    encStep bytes (w ++ r) w.length (capOf (L : Int) w.length) =
      some (bytes.length, (w ++ bytes) ++ r.drop bytes.length) := by
  unfold encStep capOf
  by_cases hz : ((L : Nat) : Int) = 0
  · have hL0 : L = 0 := by exact_mod_cast hz
    have hw : w.length = 0 := by omega
    have hr : r.length = 0 := by omega
    have hb : bytes.length = 0 := by omega
    have hwe : w = [] := List.length_eq_zero.mp hw
    have hre : r = [] := List.length_eq_zero.mp hr
    have hbe : bytes = [] := List.length_eq_zero.mp hb
    subst hwe; subst hre; subst hbe
    simp [hL0, writeBytes]
  · have hcap : ((L : Nat) : Int) - (w.length : Int) = (r.length : Int) := by
      have : (L : Int) = (w.length : Int) + (r.length : Int) := by
        exact_mod_cast hL
      omega
    simp only [if_neg hz, hcap]
    by_cases hr0 : ((r.length : Nat) : Int) = 0
    · have hrn : r.length = 0 := by exact_mod_cast hr0
      have hb : bytes.length = 0 := by omega
      have hre : r = [] := List.length_eq_zero.mp hrn
      have hbe : bytes = [] := List.length_eq_zero.mp hb
      subst hre; subst hbe
      simp
    · rw [if_neg hr0, if_pos (by exact_mod_cast hle)]
      rw [writeBytes_append]

theorem mbp_go_fill (ps : List Probe) :
    ∀ (L : Nat) (w r : List Nat) (tags : List NodeTag),
    L = w.length + r.length →
    totalLen (createBytesList ps) ≤ r.length →
    make_blockdev_path_go (L : Int) ps (w ++ r) w.length tags =
      some (w.length + totalLen (createBytesList ps),
            (w ++ (createBytesList ps).join) ++
              r.drop (totalLen (createBytesList ps)),
            tags ++ topoTagsOf ps) := by
  induction ps with
  | nil =>
    intro L w r tags hL hle
    simp [make_blockdev_path_go, createBytesList, topoTagsOf, totalLen]
  | cons p ps ih =>
    intro L w r tags hL hle
    by_cases hp : p.parse
    · cases hc : p.create with
      | none =>
        have hcb : createBytesList (p :: ps) = createBytesList ps := by
          simp [createBytesList, List.takeWhile_cons, hp, hc]
        have htt : topoTagsOf (p :: ps) = topoTagsOf ps := by
          simp [topoTagsOf, hcb]
        rw [hcb] at hle
        rw [hcb, htt]
        simp only [make_blockdev_path_go, hp, hc]
        simp only [Bool.not_true, Bool.false_eq_true, if_false]
        exact ih L w r tags hL hle
      | some bytes =>
        have hcb : createBytesList (p :: ps) = bytes :: createBytesList ps := by
          simp [createBytesList, List.takeWhile_cons, hp, hc]
        have htt : topoTagsOf (p :: ps) =
            NodeTag.topo :: topoTagsOf ps := by
          simp [topoTagsOf, hcb]
        rw [hcb] at hle
        rw [hcb, htt]
        have htot : totalLen (bytes :: createBytesList ps) =
            bytes.length + totalLen (createBytesList ps) := by
          simp [totalLen]
        rw [htot] at hle
        have hble : bytes.length ≤ r.length := by omega
        have hstep := encStep_fit bytes w r L hL hble
        simp only [make_blockdev_path_go, hp, hc]
        simp only [Bool.not_true, Bool.false_eq_true, if_false]
        simp only [hstep]
        have hrec := ih L (w ++ bytes) (r.drop bytes.length)
          (tags ++ [NodeTag.topo])
          (by simp; omega)
          (by simp; omega)
        rw [show (w ++ bytes).length = w.length + bytes.length by simp] at hrec
        rw [hrec]
        have e1 : w.length + bytes.length + totalLen (createBytesList ps) =
            w.length + totalLen (bytes :: createBytesList ps) := by
          rw [htot]; omega
        have e2 : ((w ++ bytes) ++ (createBytesList ps).join) ++
              (r.drop bytes.length).drop (totalLen (createBytesList ps)) =
            (w ++ (bytes :: createBytesList ps).join) ++
              r.drop (totalLen (bytes :: createBytesList ps)) := by
          rw [List.drop_drop, htot]
          have hj : (bytes :: createBytesList ps).join =
              bytes ++ (createBytesList ps).join := rfl
          rw [hj, ← List.append_assoc]
        have e3 : (tags ++ [NodeTag.topo]) ++ topoTagsOf ps =
            tags ++ NodeTag.topo :: topoTagsOf ps := by
          simp
        rw [e1, e2, e3]
    · have hcb : createBytesList (p :: ps) = [] := by
        simp [createBytesList, List.takeWhile_cons, hp]
      have htt : topoTagsOf (p :: ps) = [] := by
        simp [topoTagsOf, hcb]
      rw [hcb, htt]
      simp [make_blockdev_path_go, hp, totalLen]

theorem encode_fill_run (env : EncEnv) (dev d1 d2 : Device) (rc : Int)
    (partition : Int) (relpath : List Char) (options eddNum : Nat)
    (bufIn : List Nat)
    (hneg : ¬ partition < 0)
    (hsp : set_part dev partition = some (d1, rc))
    (hd2 : d2 = (if hasBit (adjust_options options partition)
                    EFIBOOT_ABBREV_EDD10 then
                   { d1 with edd10_devicenum := eddNum } else d1))
    (hguard : ¬ (hasBit (adjust_options options partition)
                   (EFIBOOT_ABBREV_FILE ||| EFIBOOT_ABBREV_HD) = false ∧
                 hasBit dev.flags DEV_ABBREV_ONLY = true))
    (hopen : ((!hasBit (adjust_options options partition) EFIBOOT_ABBREV_FILE
                 && d2.part_name.isSome) ||
              (hasBit (adjust_options options partition) EFIBOOT_ABBREV_HD
                 && !d2.part_name.isSome)) = true → env.openDiskOk = true)
    (hlen : bufIn.length = totalLen (nodeList env
        (adjust_options options partition) d2 relpath)) :
    efi_va_generate_file_device_path_from_esp env dev bufIn
        ((totalLen (nodeList env (adjust_options options partition) d2
            relpath) : Nat) : Int) partition relpath options eddNum =
      Except.ok (totalLen (nodeList env (adjust_options options partition) d2
          relpath),
        (nodeList env (adjust_options options partition) d2 relpath).join,
        tagList (adjust_options options partition) d2) := by
  have hflags : d2.flags = dev.flags := by
    rw [hd2]
    split
    · exact (set_part_fields hsp).2.1
    · exact (set_part_fields hsp).2.1
  have hcond : (!hasBit (adjust_options options partition)
                   (EFIBOOT_ABBREV_FILE ||| EFIBOOT_ABBREV_HD) &&
                hasBit d2.flags DEV_ABBREV_ONLY) = false := by
    rw [hflags]
    cases hm : hasBit (adjust_options options partition)
        (EFIBOOT_ABBREV_FILE ||| EFIBOOT_ABBREV_HD) with
    | true => simp
    | false =>
      cases ha : hasBit dev.flags DEV_ABBREV_ONLY with
      | true => exact absurd ⟨hm, ha⟩ hguard
      | false => simp
  have hL4 : 4 ≤ totalLen (nodeList env (adjust_options options partition)
      d2 relpath) := by
    simp [nodeList, totalLen, end_entire_bytes]
    omega
  have hsize0 : ¬ ((totalLen (nodeList env (adjust_options options partition)
      d2 relpath) : Int) = 0) := by
    have : totalLen (nodeList env (adjust_options options partition) d2
        relpath) ≠ 0 := by omega
    exact_mod_cast this
  simp only [efi_va_generate_file_device_path_from_esp, if_neg hneg, hsp]
  rw [← hd2]
  simp only [hcond, Bool.false_eq_true, if_false, ne_eq, hsize0,
    not_false_iff, if_true]
  set L := totalLen (nodeList env (adjust_options options partition) d2
    relpath) with hLdef
  set z := List.map (fun _ => (0 : Nat)) bufIn with hzdef
  have hz : z.length = L := by
    rw [hzdef, List.length_map, hlen]
  by_cases hE : (hasBit (adjust_options options partition)
      EFIBOOT_ABBREV_EDD10 &&
      !hasBit (adjust_options options partition) EFIBOOT_ABBREV_FILE &&
      !hasBit (adjust_options options partition) EFIBOOT_ABBREV_HD) = true
  · by_cases hH : (!hasBit (adjust_options options partition)
          EFIBOOT_ABBREV_FILE && d2.part_name.isSome ||
        hasBit (adjust_options options partition) EFIBOOT_ABBREV_HD &&
          !d2.part_name.isSome) = true
    · have ho2 := hopen hH
      have hHp := hH
      simp at hHp
      have hdec : L = (env.eddBytes d2.edd10_devicenum).length +
          env.hdBytes.length +
          (env.fileEnc (tilt_slashes relpath)).length +
          end_entire_bytes.length := by
        rw [hLdef]
        simp [nodeList, totalLen, hE, hHp]
        omega
      have h1 := encStep_fit (env.eddBytes d2.edd10_devicenum) [] z L
        (by simp [hz]) (by rw [hz]; omega)
      simp only [List.nil_append, List.length_nil] at h1
      rw [show capOf (L : Int) 0 = (L : Int) by
        simp [capOf, hsize0]] at h1
      have h2 := encStep_fit env.hdBytes (env.eddBytes d2.edd10_devicenum)
        (z.drop (env.eddBytes d2.edd10_devicenum).length) L
        (by simp [hz]; omega) (by simp [hz]; omega)
      have h3 := encStep_fit (env.fileEnc (tilt_slashes relpath))
        (env.eddBytes d2.edd10_devicenum ++ env.hdBytes)
        ((z.drop (env.eddBytes d2.edd10_devicenum).length).drop
          env.hdBytes.length) L
        (by simp [hz]; omega) (by simp [hz]; omega)
      rw [List.length_append] at h3
      have h4 := encStep_fit end_entire_bytes
        ((env.eddBytes d2.edd10_devicenum ++ env.hdBytes) ++
          env.fileEnc (tilt_slashes relpath))
        (((z.drop (env.eddBytes d2.edd10_devicenum).length).drop
          env.hdBytes.length).drop
          (env.fileEnc (tilt_slashes relpath)).length) L
        (by simp [hz]; omega) (by simp [hz]; omega)
      rw [List.length_append, List.length_append] at h4
      rw [hzdef] at h1 h2 h3 h4 ⊢
      simp only [hE, h1, h2, h3, h4, hH, if_true, ho2, Bool.not_true,
        Bool.false_eq_true, if_false]
      have hdrop : List.drop end_entire_bytes.length
          (List.drop (env.fileEnc (tilt_slashes relpath)).length
            (List.drop env.hdBytes.length
              (List.drop (env.eddBytes d2.edd10_devicenum).length
                (List.map (fun x => (0 : Nat)) bufIn)))) = [] := by
        simp only [List.drop_drop]
        apply List.drop_eq_nil_of_le
        simp [hlen]
        omega
      rw [hdrop]
      simp [nodeList, tagList, totalLen, hE, hHp, List.append_assoc]
      omega
    · have hPn : ¬ (hasBit (adjust_options options partition)
              EFIBOOT_ABBREV_FILE = false ∧ d2.part_name.isSome = true ∨
            hasBit (adjust_options options partition)
              EFIBOOT_ABBREV_HD = true ∧ d2.part_name = none) := by
        intro hP
        apply hH
        rcases hP with ⟨h1, h2⟩ | ⟨h1, h2⟩ <;> simp [h1, h2]
      have hdec : L = (env.eddBytes d2.edd10_devicenum).length +
          (env.fileEnc (tilt_slashes relpath)).length +
          end_entire_bytes.length := by
        rw [hLdef]
        simp [nodeList, totalLen, hE, hPn]
        omega
      have h1 := encStep_fit (env.eddBytes d2.edd10_devicenum) [] z L
        (by simp [hz]) (by rw [hz]; omega)
      simp only [List.nil_append, List.length_nil] at h1
      rw [show capOf (L : Int) 0 = (L : Int) by
        simp [capOf, hsize0]] at h1
      have h3 := encStep_fit (env.fileEnc (tilt_slashes relpath))
        (env.eddBytes d2.edd10_devicenum)
        (z.drop (env.eddBytes d2.edd10_devicenum).length) L
        (by simp [hz]; omega) (by simp [hz]; omega)
      have h4 := encStep_fit end_entire_bytes
        (env.eddBytes d2.edd10_devicenum ++
          env.fileEnc (tilt_slashes relpath))
        ((z.drop (env.eddBytes d2.edd10_devicenum).length).drop
          (env.fileEnc (tilt_slashes relpath)).length) L
        (by simp [hz]; omega) (by simp [hz]; omega)
      rw [List.length_append] at h4
      rw [hzdef] at h1 h3 h4 ⊢
      simp only [hE, h1, h3, h4, hH, Bool.false_eq_true, if_false, if_true]
      have hdrop : List.drop end_entire_bytes.length
          (List.drop (env.fileEnc (tilt_slashes relpath)).length
            (List.drop (env.eddBytes d2.edd10_devicenum).length
              (List.map (fun _ => (0 : Nat)) bufIn))) = [] := by
        simp only [List.drop_drop]
        apply List.drop_eq_nil_of_le
        simp [hlen]
        omega
      rw [hdrop]
      simp [nodeList, tagList, totalLen, hE, hPn, List.append_assoc]
      omega
  · by_cases hT : (!hasBit (adjust_options options partition)
          EFIBOOT_ABBREV_FILE &&
        !hasBit (adjust_options options partition) EFIBOOT_ABBREV_HD) = true
    · have hjl : (createBytesList d2.probes).join.length =
          totalLen (createBytesList d2.probes) := by
        simp [totalLen]
      by_cases hH : (!hasBit (adjust_options options partition)
            EFIBOOT_ABBREV_FILE && d2.part_name.isSome ||
          hasBit (adjust_options options partition) EFIBOOT_ABBREV_HD &&
            !d2.part_name.isSome) = true
      · have ho2 := hopen hH
        have hHp := hH
        simp at hHp
        have hdec : L = totalLen (createBytesList d2.probes) +
            env.hdBytes.length +
            (env.fileEnc (tilt_slashes relpath)).length +
            end_entire_bytes.length := by
          rw [hLdef]
          simp [nodeList, totalLen, hE, hT, hHp]
          omega
        have h1 : make_blockdev_path_go (L : Int) d2.probes z 0 [] =
            some (totalLen (createBytesList d2.probes),
              (createBytesList d2.probes).join ++
                z.drop (totalLen (createBytesList d2.probes)),
              topoTagsOf d2.probes) := by
          have hm := mbp_go_fill d2.probes L [] z []
            (by simp [hz]) (by rw [hz]; omega)
          simp only [List.nil_append, List.length_nil, Nat.zero_add] at hm
          exact hm
        have h2 := encStep_fit env.hdBytes ((createBytesList d2.probes).join)
          (z.drop (totalLen (createBytesList d2.probes))) L
          (by simp [hz, hjl]; omega) (by simp [hz]; omega)
        rw [hjl] at h2
        have h3 := encStep_fit (env.fileEnc (tilt_slashes relpath))
          ((createBytesList d2.probes).join ++ env.hdBytes)
          ((z.drop (totalLen (createBytesList d2.probes))).drop
            env.hdBytes.length) L
          (by simp [hz, hjl]; omega) (by simp [hz]; omega)
        rw [List.length_append, hjl] at h3
        have h4 := encStep_fit end_entire_bytes
          (((createBytesList d2.probes).join ++ env.hdBytes) ++
            env.fileEnc (tilt_slashes relpath))
          (((z.drop (totalLen (createBytesList d2.probes))).drop
            env.hdBytes.length).drop
            (env.fileEnc (tilt_slashes relpath)).length) L
          (by simp [hz, hjl]; omega) (by simp [hz]; omega)
        rw [List.length_append, List.length_append, hjl] at h4
        rw [hzdef] at h1 h2 h3 h4 ⊢
        simp only [hE, hT, Bool.false_eq_true, if_false, if_true,
          make_blockdev_path, h1, h2, h3, h4, hH, ho2, Bool.not_true]
        have hdrop : List.drop end_entire_bytes.length
            (List.drop (env.fileEnc (tilt_slashes relpath)).length
              (List.drop env.hdBytes.length
                (List.drop (totalLen (createBytesList d2.probes))
                  (List.map (fun _ => (0 : Nat)) bufIn)))) = [] := by
          simp only [List.drop_drop]
          apply List.drop_eq_nil_of_le
          simp [hlen]
          omega
        rw [hdrop]
        simp [nodeList, tagList, totalLen, hE, hT, hHp, List.append_assoc]
        simp only [totalLen] at hdec
        omega
      · have hPn : ¬ (hasBit (adjust_options options partition)
                EFIBOOT_ABBREV_FILE = false ∧ d2.part_name.isSome = true ∨
              hasBit (adjust_options options partition)
                EFIBOOT_ABBREV_HD = true ∧ d2.part_name = none) := by
          intro hP
          apply hH
          rcases hP with ⟨h1, h2⟩ | ⟨h1, h2⟩ <;> simp [h1, h2]
        have hdec : L = totalLen (createBytesList d2.probes) +
            (env.fileEnc (tilt_slashes relpath)).length +
            end_entire_bytes.length := by
          rw [hLdef]
          simp [nodeList, totalLen, hE, hT, hPn]
          omega
        have h1 : make_blockdev_path_go (L : Int) d2.probes z 0 [] =
            some (totalLen (createBytesList d2.probes),
              (createBytesList d2.probes).join ++
                z.drop (totalLen (createBytesList d2.probes)),
              topoTagsOf d2.probes) := by
          have hm := mbp_go_fill d2.probes L [] z []
            (by simp [hz]) (by rw [hz]; omega)
          simp only [List.nil_append, List.length_nil, Nat.zero_add] at hm
          exact hm
        have h3 := encStep_fit (env.fileEnc (tilt_slashes relpath))
          ((createBytesList d2.probes).join)
          (z.drop (totalLen (createBytesList d2.probes))) L
          (by simp [hz, hjl]; omega) (by simp [hz]; omega)
        rw [hjl] at h3
        have h4 := encStep_fit end_entire_bytes
          ((createBytesList d2.probes).join ++
            env.fileEnc (tilt_slashes relpath))
          ((z.drop (totalLen (createBytesList d2.probes))).drop
            (env.fileEnc (tilt_slashes relpath)).length) L
          (by simp [hz, hjl]; omega) (by simp [hz]; omega)
        rw [List.length_append, hjl] at h4
        rw [hzdef] at h1 h3 h4 ⊢
        simp only [hE, hT, Bool.false_eq_true, if_false, if_true,
          make_blockdev_path, h1, h3, h4, hH]
        have hdrop : List.drop end_entire_bytes.length
            (List.drop (env.fileEnc (tilt_slashes relpath)).length
              (List.drop (totalLen (createBytesList d2.probes))
                (List.map (fun _ => (0 : Nat)) bufIn))) = [] := by
          simp only [List.drop_drop]
          apply List.drop_eq_nil_of_le
          simp [hlen]
          omega
        rw [hdrop]
        simp [nodeList, tagList, totalLen, hE, hT, hPn, List.append_assoc]
        simp only [totalLen] at hdec
        omega
    · by_cases hH : (!hasBit (adjust_options options partition)
            EFIBOOT_ABBREV_FILE && d2.part_name.isSome ||
          hasBit (adjust_options options partition) EFIBOOT_ABBREV_HD &&
            !d2.part_name.isSome) = true
      · have ho2 := hopen hH
        have hHp := hH
        simp at hHp
        have hdec : L = env.hdBytes.length +
            (env.fileEnc (tilt_slashes relpath)).length +
            end_entire_bytes.length := by
          rw [hLdef]
          simp [nodeList, totalLen, hE, hT, hHp]
          omega
        have h2 := encStep_fit env.hdBytes [] z L
          (by simp [hz]) (by rw [hz]; omega)
        simp only [List.nil_append, List.length_nil] at h2
        have h3 := encStep_fit (env.fileEnc (tilt_slashes relpath))
          env.hdBytes (z.drop env.hdBytes.length) L
          (by simp [hz]; omega) (by simp [hz]; omega)
        have h4 := encStep_fit end_entire_bytes
          (env.hdBytes ++ env.fileEnc (tilt_slashes relpath))
          ((z.drop env.hdBytes.length).drop
            (env.fileEnc (tilt_slashes relpath)).length) L
          (by simp [hz]; omega) (by simp [hz]; omega)
        rw [List.length_append] at h4
        rw [hzdef] at h2 h3 h4 ⊢
        simp only [hE, hT, Bool.false_eq_true, if_false, if_true,
          h2, h3, h4, hH, ho2, Bool.not_true, Nat.zero_add, List.nil_append]
        have hdrop : List.drop end_entire_bytes.length
            (List.drop (env.fileEnc (tilt_slashes relpath)).length
              (List.drop env.hdBytes.length
                (List.map (fun _ => (0 : Nat)) bufIn))) = [] := by
          simp only [List.drop_drop]
          apply List.drop_eq_nil_of_le
          simp [hlen]
          omega
        rw [hdrop]
        simp [nodeList, tagList, totalLen, hE, hT, hHp, List.append_assoc]
        omega
      · have hPn : ¬ (hasBit (adjust_options options partition)
                EFIBOOT_ABBREV_FILE = false ∧ d2.part_name.isSome = true ∨
              hasBit (adjust_options options partition)
                EFIBOOT_ABBREV_HD = true ∧ d2.part_name = none) := by
          intro hP
          apply hH
          rcases hP with ⟨h1, h2⟩ | ⟨h1, h2⟩ <;> simp [h1, h2]
        have hdec : L = (env.fileEnc (tilt_slashes relpath)).length +
            end_entire_bytes.length := by
          rw [hLdef]
          simp [nodeList, totalLen, hE, hT, hPn]
        have h3 := encStep_fit (env.fileEnc (tilt_slashes relpath)) [] z L
          (by simp [hz]) (by rw [hz]; omega)
        simp only [List.nil_append, List.length_nil] at h3
        have h4 := encStep_fit end_entire_bytes
          (env.fileEnc (tilt_slashes relpath))
          (z.drop (env.fileEnc (tilt_slashes relpath)).length) L
          (by simp [hz]; omega) (by simp [hz]; omega)
        rw [hzdef] at h3 h4 ⊢
        simp only [hE, hT, Bool.false_eq_true, if_false, if_true,
          h3, h4, hH, Nat.zero_add, List.nil_append]
        have hdrop : List.drop end_entire_bytes.length
            (List.drop (env.fileEnc (tilt_slashes relpath)).length
              (List.map (fun _ => (0 : Nat)) bufIn)) = [] := by
          simp only [List.drop_drop]
          apply List.drop_eq_nil_of_le
          simp [hlen]
          omega
        rw [hdrop]
        simp [nodeList, tagList, totalLen, hE, hT, hPn, List.append_assoc]
        omega


theorem join_snoc_end (ls : List (List Nat)) (fb : List Nat) :
    ∃ pre, (ls ++ [fb, end_entire_bytes]).join = pre ++ end_entire_bytes := by
  refine ⟨ls.join ++ fb, ?_⟩
  simp [List.join_append, List.append_assoc]

theorem nodeList_tail_end (env : EncEnv) (o : Nat) (d : Device)
    (rp : List Char) :
    ∃ pre, (nodeList env o d rp).join = pre ++ end_entire_bytes := by
  obtain ⟨pre, hp⟩ := join_snoc_end
    ((if hasBit o EFIBOOT_ABBREV_EDD10 && !hasBit o EFIBOOT_ABBREV_FILE &&
        !hasBit o EFIBOOT_ABBREV_HD then
       [env.eddBytes d.edd10_devicenum]
     else if !hasBit o EFIBOOT_ABBREV_FILE && !hasBit o EFIBOOT_ABBREV_HD then
       createBytesList d.probes
     else []) ++
     (if (!hasBit o EFIBOOT_ABBREV_FILE && d.part_name.isSome) ||
         (hasBit o EFIBOOT_ABBREV_HD && !d.part_name.isSome) then
        [env.hdBytes]
      else []))
    (env.fileEnc (tilt_slashes rp))
  refine ⟨pre, ?_⟩
  rw [← hp]
  simp [nodeList, List.append_assoc]

theorem totalLen_nodeList_ge_four (env : EncEnv) (o : Nat) (d : Device)
    (rp : List Char) : 4 ≤ totalLen (nodeList env o d rp) := by
  simp [nodeList, totalLen, end_entire_bytes]
  omega

/-- C5: the two-pass contract of the encoder.  Given a device with a
resolved partition index of at least 1 (crash-free set_part), any options
that pass the ABBREV_ONLY validation, a working open_disk, and external
node encoders meeting the two-pass contract of spec section 6, the
size-query call (capacity 0, no buffer) succeeds and returns a length L —
at least the 4 bytes of the EndEntire terminator, hence nonnegative — and
the subsequent call on the same inputs with a buffer of exactly L bytes
succeeds, returns the same L and the same node-tag stream, fills the
buffer with exactly L bytes, and those bytes end in the EndEntire
terminator node of zero payload length. -/
theorem encode_two_pass (env : EncEnv) (dev d1 d2 : Device) (rc : Int)
    (partition : Int) (relpath : List Char) (options eddNum : Nat)
    (hpart : 1 ≤ partition)
    (hsp : set_part dev partition = some (d1, rc))
    (hd2 : d2 = (if hasBit options EFIBOOT_ABBREV_EDD10 then
                   { d1 with edd10_devicenum := eddNum } else d1))
    (hguard : hasBit options (EFIBOOT_ABBREV_FILE ||| EFIBOOT_ABBREV_HD) =
                true ∨
              hasBit dev.flags DEV_ABBREV_ONLY = false)
    (hopen : env.openDiskOk = true) :
    ∃ L : Nat,
      efi_va_generate_file_device_path_from_esp env dev [] 0 partition
          relpath options eddNum = Except.ok (L, [], tagList options d2) ∧
      4 ≤ L ∧
      ∀ bufIn : List Nat, bufIn.length = L →
        ∃ out : List Nat,
          efi_va_generate_file_device_path_from_esp env dev bufIn (L : Int)
              partition relpath options eddNum =
            Except.ok (L, out, tagList options d2) ∧
          out.length = L ∧
          ∃ pre : List Nat, out = pre ++ end_entire_bytes := by
  have hpz : partition ≠ 0 := by omega
  have hadj : adjust_options options partition = options :=
    adjust_options_of_ne options hpz
  have hneg : ¬ partition < 0 := by omega
  have hd2a : d2 = (if hasBit (adjust_options options partition)
      EFIBOOT_ABBREV_EDD10 then { d1 with edd10_devicenum := eddNum }
    else d1) := by rw [hadj]; exact hd2
  have hguard2 : ¬ (hasBit (adjust_options options partition)
        (EFIBOOT_ABBREV_FILE ||| EFIBOOT_ABBREV_HD) = false ∧
      hasBit dev.flags DEV_ABBREV_ONLY = true) := by
    intro hc
    rcases hguard with ht | hf
    · rw [hadj] at hc
      rw [ht] at hc
      exact absurd hc.1 (by decide)
    · rw [hf] at hc
      exact absurd hc.2 (by decide)
  have hopen2 : ((!hasBit (adjust_options options partition)
        EFIBOOT_ABBREV_FILE && d2.part_name.isSome) ||
      (hasBit (adjust_options options partition) EFIBOOT_ABBREV_HD &&
        !d2.part_name.isSome)) = true → env.openDiskOk = true :=
    fun _ => hopen
  have hdry := encode_dry_run env dev d1 d2 rc partition relpath options
    eddNum hneg hsp hd2a hguard2 hopen2
  have hfill := encode_fill_run env dev d1 d2 rc partition relpath options
    eddNum (List.replicate (totalLen (nodeList env
      (adjust_options options partition) d2 relpath)) 0) hneg hsp hd2a
    hguard2 hopen2 (by simp)
  refine ⟨totalLen (nodeList env options d2 relpath), ?_, ?_, ?_⟩
  · rw [hdry, hadj]
  · exact totalLen_nodeList_ge_four env options d2 relpath
  · intro bufIn hlen
    refine ⟨(nodeList env options d2 relpath).join, ?_, ?_, ?_⟩
    · have hfill2 := encode_fill_run env dev d1 d2 rc partition relpath
        options eddNum bufIn hneg hsp hd2a hguard2 hopen2
        (by rw [hadj]; exact hlen)
      rw [hadj] at hfill2
      exact hfill2
    · simp [totalLen]
    · exact nodeList_tail_end env options d2 relpath

/-- C5 witness: the two-pass contract applied to the concrete device,
environment and full-path options. -/
theorem encode_two_pass_witness :
    ∃ L : Nat,
      efi_va_generate_file_device_path_from_esp exEnv exDev [] 0 1
          (String.toList "EFI") 0 0 = Except.ok (L, [], tagList 0 exDev) ∧
      4 ≤ L ∧
      ∀ bufIn : List Nat, bufIn.length = L →
        ∃ out : List Nat,
          efi_va_generate_file_device_path_from_esp exEnv exDev bufIn
              (L : Int) 1 (String.toList "EFI") 0 0 =
            Except.ok (L, out, tagList 0 exDev) ∧
          out.length = L ∧
          ∃ pre : List Nat, out = pre ++ end_entire_bytes :=
  encode_two_pass exEnv exDev exDev exDev 0 1 (String.toList "EFI") 0 0
    (by decide) (by rfl) (by rfl) (Or.inr (by decide)) (by rfl)
